import Mathlib

set_option autoImplicit false

/-!
Shallow embedding of the LogJoin sessionizer core (src/logjoin/LogJoin.cc)
together with the external collaborators it relies on (ordered KV store,
binary message reader/writer, shard predicate, join target), and proofs of
the behavioural claims about it.

Strings and byte buffers are both modelled as lists of natural numbers
(byte values); `str` transcribes a Lean string literal to that form.
-/

/-- Byte strings: both text (uids, keys, parameter names) and binary
buffers (encoded event records) are byte lists. -/
abbrev Bytes := List Nat

/-- Transcription of a string literal into its byte list. -/
def str (s : String) : Bytes := s.data.map Char.toNat

/-- The byte value of the field separator character tilde. -/
def tildeByte : Nat := 126

/-- The byte value of the pipe character used by the raw-line wrapper. -/
def pipeByte : Nat := 124

/-- Strict lexicographic order on byte strings, as the ordered KV store
compares keys (memcmp order; a proper prefix sorts first). -/
def keyLt : Bytes → Bytes → Bool
  | [], [] => false
  | [], _ :: _ => true
  | _ :: _, [] => false
  | a :: as, b :: bs => a < b || (a == b && keyLt as bs)

/-- Error kinds raised by the core (stx exception kinds). -/
inductive Err where
  | parseError
  | runtimeError
  | indexError
  | bufferOverflow
  deriving DecidableEq, Repr

/-- Fuel-structural worker for the varint encoder; any fuel at least the
value itself yields the encoding (each step divides the value by 128). -/
def encodeVarUIntAux : Nat → Nat → Bytes
  | 0, n => [n]
  | fuel + 1, n =>
    if n < 128 then [n] else (n % 128 + 128) :: encodeVarUIntAux fuel (n / 128)

/-- BinaryMessageWriter.appendVarUInt: little-endian base-128 varint,
low 7 bits first, continuation bit 0x80 on all but the last byte. -/
def encodeVarUInt (n : Nat) : Bytes := encodeVarUIntAux n n

/-- Modelled from the spec: BinaryMessageReader.readVarUInt (the reader is
not part of the sources given; §3 specifies varint-packed records and §7
that reading past the end raises). Returns the value and remaining bytes,
or `none` on a truncated buffer. -/
def readVarUInt : Bytes → Option (Nat × Bytes)
  | [] => none
  | b :: rest =>
    if b < 128 then some (b, rest)
    else match readVarUInt rest with
      | none => none
      | some (v, r) => some (b % 128 + v * 128, r)

/-- Modelled from the spec: BinaryMessageReader.read(n): take `n` bytes,
failing when fewer remain. -/
def readBytes (n : Nat) (l : Bytes) : Option (Bytes × Bytes) :=
  if n ≤ l.length then some (l.take n, l.drop n) else none

/-- The pixel parameter registrations performed by the LogJoin constructor,
in source order (addPixelParamID calls). -/
def pixelParamRegs : List (Bytes × Nat) :=
  [(str ("dw_ab"), 1), (str ("l"), 2), (str ("u_x"), 3), (str ("u_y"), 4),
   (str ("is"), 5), (str ("pg"), 6), (str ("q_cat1"), 7), (str ("q_cat2"), 8),
   (str ("q_cat3"), 9), (str ("slrid"), 10), (str ("i"), 11), (str ("s"), 12),
   (str ("ml"), 13), (str ("adm"), 14), (str ("lgn"), 15), (str ("slr"), 16),
   (str ("lng"), 17), (str ("dwnid"), 18), (str ("fnm"), 19), (str ("r_url"), 20),
   (str ("r_nm"), 21), (str ("r_cpn"), 22), (str ("x"), 23), (str ("qx"), 24),
   (str ("cs"), 25), (str ("qt"), 26), (str ("qstr~de"), 100), (str ("qstr~pl"), 101),
   (str ("qstr~en"), 102), (str ("qstr~fr"), 103), (str ("qstr~it"), 104),
   (str ("qstr~nl"), 105), (str ("qstr~es"), 106)]

/-- LogJoin.getPixelParamID: name-to-id lookup, kIndexError on failure. -/
def getPixelParamID (name : Bytes) : Except Err Nat :=
  match List.lookup name pixelParamRegs with
  | some id => Except.ok id
  | none => Except.error Err.indexError

/-- LogJoin.getPixelParamName: id-to-name lookup, kIndexError on failure. -/
def getPixelParamName (id : Nat) : Except Err Bytes :=
  match List.lookup id (pixelParamRegs.map (fun p => (p.2, p.1))) with
  | some name => Except.ok name
  | none => Except.error Err.indexError

/-- Modelled from the spec: TrackedSession (§4.5 SessionBuilder): uid,
customer key, and the list of decoded events, each an event time in
microseconds, an event type, an event id and the stored parameters. -/
structure TrackedSessionT where
  uid : Bytes
  customer_key : Bytes
  events : List (Nat × Bytes × Bytes × List (Bytes × Bytes))
  deriving DecidableEq, Repr

/-- Modelled from the spec: the shard predicate and the pluggable join
target (LogJoinShard.testUID and LogJoinTarget.joinSession are external
collaborators, §4.1 and §4.6), plus the dry-run flag. -/
structure LogJoinCfg where
  accepts : Bytes → Bool
  joinSession : TrackedSessionT → Except Unit Bytes
  dryRun : Bool

/-- The in-memory and persistent state owned by one LogJoin instance: the
sessions_flush_times_ deadline map (uid, deadline micros), the KV store as
a key-sorted association list, and the three counters. -/
structure LJState where
  flushTimes : List (Bytes × Nat)
  store : List (Bytes × Bytes)
  logTotal : Nat
  logInvalid : Nat
  joinedSessions : Nat
  deriving DecidableEq, Repr

/-- Insert-or-overwrite into the key-sorted store (mdb insert/update, both
treated as upsert per §4.3). -/
def storePut (k v : Bytes) : List (Bytes × Bytes) → List (Bytes × Bytes)
  | [] => [(k, v)]
  | (k1, v1) :: t =>
    if keyLt k k1 then (k, v) :: (k1, v1) :: t
    else if k = k1 then (k, v) :: t
    else (k1, v1) :: storePut k v t

/-- HashMap.emplace on sessions_flush_times_: inserts only when the key is
absent; an existing entry is left untouched (std::unordered_map::emplace). -/
def emplaceDeadline (k : Bytes) (v : Nat) (m : List (Bytes × Nat)) : List (Bytes × Nat) :=
  match List.lookup k m with
  | some _ => m
  | none => m ++ [(k, v)]

/-- Modelled from the spec: kSessionIdleTimeoutSeconds (declared outside the
given sources; §6 default idle_timeout_seconds = 1800). -/
def kSessionIdleTimeoutSeconds : Nat := 1800

/-- Microseconds per second (stx.kMicrosPerSecond). -/
def kMicrosPerSecond : Nat := 1000000

/-- The event-record payload built by LogJoin.appendToSession: varint of the
whole seconds, varint event-id length, event-id bytes, then one
(param-id varint, length varint, bytes) triple per stored parameter;
kIndexError when a parameter name is not registered. -/
def encodeEvent (time_s : Nat) (evid : Bytes) (ps : List (Bytes × Bytes)) :
    Except Err Bytes := do
  let triples ← ps.mapM (fun p => do
    let pid ← getPixelParamID p.1
    pure (encodeVarUInt pid ++ encodeVarUInt p.2.length ++ p.2))
  pure (encodeVarUInt time_s ++ encodeVarUInt evid.length ++ evid ++ triples.flatten)

/-- LogJoin.appendToSession: advance the uid's deadline through the guarded
emplace, encode the event record, insert it at "uid~evtype~hex64" and
overwrite "uid~cust" with the customer key. `timeMicros` is the event time
in microseconds and `hex64` stands in for rnd_.hex64(). On an encode
failure the deadline update has already happened and no key is written. -/
def appendToSession (customer_key : Bytes) (timeMicros : Nat) (uid evid evtype : Bytes)
    (logline : List (Bytes × Bytes)) (hex64 : Bytes) (s : LJState) :
    Option Err × LJState :=
  let flush_at := timeMicros + kSessionIdleTimeoutSeconds * kMicrosPerSecond
  let ft :=
    match List.lookup uid s.flushTimes with
    | none => emplaceDeadline uid flush_at s.flushTimes
    | some old =>
      if old < flush_at then emplaceDeadline uid flush_at s.flushTimes
      else s.flushTimes
  let s1 := { s with flushTimes := ft }
  match encodeEvent (timeMicros / kMicrosPerSecond) evid logline with
  | Except.error e => (some e, s1)
  | Except.ok buf =>
    let evkey := uid ++ [tildeByte] ++ evtype ++ [tildeByte] ++ hex64
    let store1 := storePut evkey buf s1.store
    let store2 := storePut (uid ++ str ("~cust")) customer_key store1
    (none, { s1 with store := store2 })

/-- URI.getParam: the value of the first pair with the given key. -/
def getParam (params : List (Bytes × Bytes)) (k : Bytes) : Option Bytes :=
  match params.find? (fun p => p.1 == k) with
  | some p => some p.2
  | none => none

/-- Index of the first occurrence of byte `b`, `none` when absent
(std::string::find). -/
def findByte (b : Nat) : Bytes → Option Nat
  | [] => none
  | x :: rest =>
    if x = b then some 0
    else match findByte b rest with
      | some i => some (i + 1)
      | none => none

/-- Fuel-structural worker for the parameter-triple loop; any fuel at
least the buffer length yields the loop's result (each iteration consumes
at least one byte). -/
def readParamsAux : Nat → Bytes → Except Err (List (Bytes × Bytes))
  | _, [] => Except.ok []
  | 0, _ :: _ => Except.error Err.bufferOverflow
  | fuel + 1, l =>
    match readVarUInt l with
    | none => Except.error Err.bufferOverflow
    | some (pid, r1) =>
      match getPixelParamName pid with
      | Except.error e => Except.error e
      | Except.ok name =>
        match readVarUInt r1 with
        | none => Except.error Err.bufferOverflow
        | some (len, r2) =>
          match readBytes len r2 with
          | none => Except.error Err.bufferOverflow
          | some (val, r3) =>
            match readParamsAux fuel r3 with
            | Except.error e => Except.error e
            | Except.ok ps => Except.ok ((name, val) :: ps)

/-- The parameter-triple loop of the flushSession decoder: while bytes
remain, read a param-id varint, resolve it to a name, read a value length
varint and the value bytes.  Any failure (truncation or unknown id) is an
error for the caller to catch. -/
def readParams (l : Bytes) : Except Err (List (Bytes × Bytes)) :=
  readParamsAux l.length l

/-- The straight-line event-record decoder (the reader sequence performed by
flushSession): varint seconds, varint event-id length, event-id bytes, then
the parameter triples to the end of the buffer. -/
def decodeEvent (b : Bytes) : Except Err (Nat × Bytes × List (Bytes × Bytes)) :=
  match readVarUInt b with
  | none => Except.error Err.bufferOverflow
  | some (t, r1) =>
    match readVarUInt r1 with
    | none => Except.error Err.bufferOverflow
    | some (len, r2) =>
      match readBytes len r2 with
      | none => Except.error Err.bufferOverflow
      | some (evid, r3) =>
        match readParams r3 with
        | Except.error e => Except.error e
        | Except.ok ps => Except.ok (t, evid, ps)

/-- One iteration of the flushSession scan body for the current entry: a
key ending in "~cust" records the customer key; any other key is an event
record whose type is the character at offset uid-length + 1, whose value
is decoded by the readers (the timestamp, event-id length and event-id
reads sit outside the try block, so their failure is the caller's), and
whose parameter triples are decoded inside the try block: that failure is
logged, bumps the invalid counter and skips just this event. -/
def processEntry (uid k v : Bytes) (sess : TrackedSessionT) (inv : Nat) :
    Except Err (TrackedSessionT × Nat) :=
  if List.isSuffixOf (str ("~cust")) k then
    Except.ok ({ sess with customer_key := v }, inv)
  else
    let evtype := (k.drop (uid.length + 1)).take 1
    match readVarUInt v with
    | none => Except.error Err.bufferOverflow
    | some (t, r1) =>
      let time := t * kMicrosPerSecond
      match readVarUInt r1 with
      | none => Except.error Err.bufferOverflow
      | some (len, r2) =>
        match readBytes len r2 with
        | none => Except.error Err.bufferOverflow
        | some (evid, r3) =>
          match readParams r3 with
          | Except.error _ => Except.ok (sess, inv + 1)
          | Except.ok ps =>
            Except.ok ({ sess with events := sess.events ++ [(time, evtype, evid, ps)] }, inv)

/-- The flushSession cursor loop over the store suffix at and after the
first key not below uid: process and delete entries while the key begins
with the bare uid; stop at the first key that does not, which stays, as
does everything after it.  An uncaught decode error stops the loop with
the current entry still present (cursor->del() is never reached). Returns
the session built so far, the invalid counter, the surviving suffix and
the propagated error, if any. -/
def flushScan (uid : Bytes) :
    List (Bytes × Bytes) → TrackedSessionT → Nat →
    TrackedSessionT × Nat × List (Bytes × Bytes) × Option Err
  | [], sess, inv => (sess, inv, [], none)
  | (k, v) :: rest, sess, inv =>
    if List.isPrefixOf uid k then
      match processEntry uid k v sess inv with
      | Except.error e => (sess, inv, (k, v) :: rest, some e)
      | Except.ok (sess2, inv2) => flushScan uid rest sess2 inv2
    else (sess, inv, (k, v) :: rest, none)

/-- Modelled from the spec: TrackedSession.firstSeenTime (§3 envelope time
is the first-seen time): the smallest event time, absent for an empty
session (Option.get on the empty option raises). -/
def firstSeenTime (sess : TrackedSessionT) : Option Nat :=
  match sess.events.map (fun e => e.1) with
  | [] => none
  | t :: ts => some (ts.foldl Nat.min t)

/-- The SessionEnvelope fields (§6). -/
structure SessionEnvelopeT where
  customer : Bytes
  session_id : Bytes
  time : Nat
  session_data : Bytes
  deriving DecidableEq, Repr

/-- Modelled from the spec: msg.encode of the envelope, a length-prefixed
serialization of the four fields (§6; the exact wire bytes are outside the
given sources and are irrelevant to the claims). -/
def encodeEnvelope (e : SessionEnvelopeT) : Bytes :=
  encodeVarUInt e.customer.length ++ e.customer ++
  encodeVarUInt e.session_id.length ++ e.session_id ++
  encodeVarUInt e.time ++
  encodeVarUInt e.session_data.length ++ e.session_data

/-- LogJoin.onSession: hand the session to the join target; in dry-run mode
stop there; otherwise build the envelope and upsert it at
"__sessionq-hex128".  A join-target failure or an empty session (whose
firstSeenTime is absent) is an error for the caller's catch block. -/
def onSession (cfg : LogJoinCfg) (hex128 : Bytes) (sess : TrackedSessionT)
    (store : List (Bytes × Bytes)) : Except Err (List (Bytes × Bytes)) :=
  match cfg.joinSession sess with
  | Except.error _ => Except.error Err.runtimeError
  | Except.ok session_data =>
    if cfg.dryRun then Except.ok store
    else
      match firstSeenTime sess with
      | none => Except.error Err.runtimeError
      | some fs =>
        let env : SessionEnvelopeT :=
          { customer := sess.customer_key, session_id := sess.uid,
            time := fs, session_data := session_data }
        Except.ok (storePut (str ("__sessionq-") ++ hex128) (encodeEnvelope env) store)

/-- LogJoin.flushSession: drain the uid's key range into a TrackedSession,
then, when a customer key was found, run onSession under a catch that only
logs; the joined_sessions counter is incremented after that catch.  When
no customer key was found, return after the drain without invoking the
target.  An uncaught decode error propagates with the already-deleted
entries gone.  `streamTime` is the unused stream_time parameter and
`hex128` stands in for rnd_.hex128(). -/
def flushSession (cfg : LogJoinCfg) (uid : Bytes) (streamTime : Nat) (hex128 : Bytes)
    (s : LJState) : Option Err × LJState :=
  let before := s.store.takeWhile (fun e => keyLt e.1 uid)
  let rest := s.store.dropWhile (fun e => keyLt e.1 uid)
  match flushScan uid rest { uid := uid, customer_key := [], events := [] } s.logInvalid with
  | (_, inv, rest2, some e) =>
    (some e, { s with store := before ++ rest2, logInvalid := inv })
  | (sess, inv, rest2, none) =>
    let s1 := { s with store := before ++ rest2, logInvalid := inv }
    if sess.customer_key.length = 0 then (none, s1)
    else
      match onSession cfg hex128 sess s1.store with
      | Except.error _ => (none, { s1 with joinedSessions := s1.joinedSessions + 1 })
      | Except.ok st2 =>
        (none, { s1 with store := st2, joinedSessions := s1.joinedSessions + 1 })

/-- The LogJoin.flush iteration over sessions_flush_times_: an entry whose
deadline is strictly below the stream time is flushed and erased; others
are kept.  A flushSession error propagates with the current entry still in
the map.  `hexes` supplies one rnd_.hex128() value per flushed session. -/
def flushLoop (cfg : LogJoinCfg) (t : Nat) :
    List Bytes → List (Bytes × Nat) → LJState →
    Option Err × List (Bytes × Nat) × LJState
  | _, [], s => (none, [], s)
  | hexes, (uid, dl) :: rest, s =>
    if dl < t then
      match flushSession cfg uid t (hexes.headD []) s with
      | (some e, s2) => (some e, (uid, dl) :: rest, s2)
      | (none, s2) => flushLoop cfg t hexes.tail rest s2
    else
      match flushLoop cfg t hexes rest s with
      | (err, kept, s2) => (err, (uid, dl) :: kept, s2)

/-- LogJoin.flush: run the eviction loop over the deadline map and store
the surviving entries back. -/
def flush (cfg : LogJoinCfg) (t : Nat) (hexes : List Bytes) (s : LJState) :
    Option Err × LJState :=
  match flushLoop cfg t hexes s.flushTimes s with
  | (err, kept, s2) => (err, { s2 with flushTimes := kept })

/-- The LogJoin.importTimeoutList walk over the whole store: skip keys
beginning with "__" and keys ending in "~cust"; for event keys take the
prefix before the first tilde as the uid, decode the leading timestamp
varint of the value, and apply the guarded emplace with deadline
(seconds + idle timeout) times 10^6.  A truncated value propagates. -/
def importLoop : List (Bytes × Bytes) → List (Bytes × Nat) →
    Option Err × List (Bytes × Nat)
  | [], ft => (none, ft)
  | (k, v) :: rest, ft =>
    if List.isPrefixOf (str ("__")) k then importLoop rest ft
    else if List.isSuffixOf (str ("~cust")) k then importLoop rest ft
    else
      let sid := k.takeWhile (fun b => b != tildeByte)
      match readVarUInt v with
      | none => (some Err.bufferOverflow, ft)
      | some (time, _) =>
        let ftime := (time + kSessionIdleTimeoutSeconds) * kMicrosPerSecond
        let ft2 :=
          match List.lookup sid ft with
          | none => emplaceDeadline sid ftime ft
          | some old => if old < ftime then emplaceDeadline sid ftime ft else ft
        importLoop rest ft2

/-- LogJoin.importTimeoutList on the instance state. -/
def importTimeoutList (s : LJState) : Option Err × LJState :=
  match importLoop s.store s.flushTimes with
  | (err, ft) => (err, { s with flushTimes := ft })

/-- Split a byte string at every occurrence of byte `b`; always yields at
least one (possibly empty) piece. -/
def splitOnByte (b : Nat) : Bytes → List Bytes
  | [] => [[]]
  | x :: rest =>
    if x = b then [] :: splitOnByte b rest
    else
      match splitOnByte b rest with
      | h :: t => (x :: h) :: t
      | [] => [[x]]

/-- Modelled from the spec: URI.parseQueryString (§6 query string grammar):
split the body on ampersands; a non-empty piece becomes a pair, split at
its first equals sign, with an empty value when there is none. -/
def parseQueryString (body : Bytes) : List (Bytes × Bytes) :=
  (splitOnByte 38 body).filterMap (fun tok =>
    if tok.isEmpty then none
    else
      match findByte 61 tok with
      | none => some (tok, [])
      | some i => some (tok.take i, tok.drop (i + 1)))

/-- std::stoul on the wrapper timestamp: the leading run of decimal digits,
failing when it is empty. -/
def stoul (l : Bytes) : Option Nat :=
  let ds := l.takeWhile (fun x => decide (48 ≤ x) && decide (x ≤ 57))
  if ds.isEmpty then none
  else some (ds.foldl (fun acc d => acc * 10 + (d - 48)) 0)

/-- The try block of LogJoin.insertLogline(customer_key, time, body, txn):
extract and split the c parameter, test the shard, validate the e
parameter against the four event types, strip c, e and v, and append.  A
silent return on a shard miss; kParseError on every validation failure. -/
def insertParsedInner (cfg : LogJoinCfg) (customer_key : Bytes) (timeMicros : Nat)
    (params : List (Bytes × Bytes)) (hex64 : Bytes) (s : LJState) :
    Option Err × LJState :=
  match getParam params (str ("c")) with
  | none => (some Err.parseError, s)
  | some c =>
    match findByte tildeByte c with
    | none => (some Err.parseError, s)
    | some i =>
      let uid := c.take i
      let eid := c.drop (i + 1)
      if uid.length = 0 ∨ eid.length = 0 then (some Err.parseError, s)
      else if ¬ cfg.accepts uid then (none, s)
      else
        match getParam params (str ("e")) with
        | none => (some Err.parseError, s)
        | some evtype =>
          if evtype.length ≠ 1 then (some Err.parseError, s)
          else if evtype = str ("q") ∨ evtype = str ("v") ∨
              evtype = str ("c") ∨ evtype = str ("u") then
            let stored := params.filter (fun p =>
              !(p.1 == str ("c") || p.1 == str ("e") || p.1 == str ("v")))
            appendToSession customer_key timeMicros uid eid evtype stored hex64 s
          else (some Err.parseError, s)

/-- LogJoin.insertLogline(customer_key, time, body, txn) on parsed params:
bump loglines_total, then run the try block; its catch bumps
loglines_invalid and rethrows. -/
def insertParsed (cfg : LogJoinCfg) (customer_key : Bytes) (timeMicros : Nat)
    (params : List (Bytes × Bytes)) (hex64 : Bytes) (s : LJState) :
    Option Err × LJState :=
  let s1 := { s with logTotal := s.logTotal + 1 }
  match insertParsedInner cfg customer_key timeMicros params hex64 s1 with
  | (some e, s2) => (some e, { s2 with logInvalid := s2.logInvalid + 1 })
  | (none, s2) => (none, s2)

/-- LogJoin.insertLogline(customer_key, time, body, txn). -/
def insertLoglineBody (cfg : LogJoinCfg) (customer_key : Bytes) (timeMicros : Nat)
    (body : Bytes) (hex64 : Bytes) (s : LJState) : Option Err × LJState :=
  insertParsed cfg customer_key timeMicros (parseQueryString body) hex64 s

/-- LogJoin.insertLogline(log_line, txn): split the pipe wrapper at the
first two pipes; kRuntimeError, before any counter is touched, when either
is missing; parse the middle field as seconds and delegate. -/
def insertLoglineRaw (cfg : LogJoinCfg) (line : Bytes) (hex64 : Bytes) (s : LJState) :
    Option Err × LJState :=
  match findByte pipeByte line with
  | none => (some Err.runtimeError, s)
  | some c_end =>
    match findByte pipeByte (line.drop (c_end + 1)) with
    | none => (some Err.runtimeError, s)
    | some j =>
      let customer_key := line.take c_end
      let body := line.drop (c_end + 1 + j + 1)
      let timestr := (line.drop (c_end + 1)).take j
      match stoul timestr with
      | none => (some Err.runtimeError, s)
      | some secs =>
        insertLoglineBody cfg customer_key (secs * kMicrosPerSecond) body hex64 s

/-- Sequential flushSession over a list of uids, consuming one hex128 per
call and stopping at the first propagated error; the reference fold that
LogJoin.flush performs on the due users. -/
def flushMany (cfg : LogJoinCfg) (t : Nat) :
    List Bytes → List Bytes → LJState → Option Err × LJState
  | _, [], s => (none, s)
  | hexes, uid :: rest, s =>
    match flushSession cfg uid t (hexes.headD []) s with
    | (some e, s2) => (some e, s2)
    | (none, s2) => flushMany cfg t hexes.tail rest s2

/-- A fresh LogJoin instance: empty deadline map, empty store, zero
counters. -/
def emptyState : LJState :=
  { flushTimes := [], store := [], logTotal := 0, logInvalid := 0, joinedSessions := 0 }

/-- Fixture: a shard accepting every uid and a join target that always
succeeds with a fixed blob; not dry-run. -/
def acceptAllCfg : LogJoinCfg :=
  { accepts := fun _ => true,
    joinSession := fun _ => Except.ok (str ("DATA")),
    dryRun := false }

/-- Fixture: a shard accepting every uid and a join target that always
throws; not dry-run. -/
def failJoinCfg : LogJoinCfg :=
  { accepts := fun _ => true,
    joinSession := fun _ => Except.error (),
    dryRun := false }

/-- Fixture: a well-formed stored event value with event id e1 and no
parameters, for a given timestamp in seconds. -/
def evBytes (t : Nat) : Bytes :=
  encodeVarUInt t ++ encodeVarUInt (str ("e1")).length ++ str ("e1")

/-- A successful association-list lookup locates a member pair. -/
theorem lookup_mem {α β : Type} [BEq α] [LawfulBEq α] {k : α} {v : β} {l : List (α × β)}
    (h : List.lookup k l = some v) : (k, v) ∈ l := by
  induction l with
  | nil => simp [List.lookup] at h
  | cons p t ih =>
    rw [List.lookup.eq_def] at h
    by_cases hk : k == p.1
    · simp [hk] at h
      have hk2 : k = p.1 := eq_of_beq hk
      refine List.mem_cons.mpr (Or.inl ?_)
      rw [hk2, ← h]
    · simp [Bool.of_not_eq_true hk] at h
      exact List.mem_cons_of_mem p (ih h)

/-- Reflexivity of the byte-list prefix test. -/
theorem pfx_refl (l : Bytes) : List.isPrefixOf l l = true := by
  induction l with
  | nil => simp [List.isPrefixOf]
  | cons a t ih => simp [List.isPrefixOf, ih]

/-- A list is a prefix of itself extended by anything. -/
theorem pfx_append (p q : Bytes) : List.isPrefixOf p (p ++ q) = true := by
  induction p with
  | nil => simp [List.isPrefixOf]
  | cons a t ih => simp [List.isPrefixOf, ih]

/-- Transitivity of the byte-list prefix test. -/
theorem pfx_trans {a b c : Bytes} (h1 : List.isPrefixOf a b = true)
    (h2 : List.isPrefixOf b c = true) : List.isPrefixOf a c = true := by
  induction a generalizing b c with
  | nil => simp [List.isPrefixOf]
  | cons x xs ih =>
    cases b with
    | nil => simp [List.isPrefixOf] at h1
    | cons y ys =>
      cases c with
      | nil => simp [List.isPrefixOf] at h2
      | cons z zs =>
        simp only [List.isPrefixOf, Bool.and_eq_true, beq_iff_eq] at h1 h2 ⊢
        exact ⟨h1.1.trans h2.1, ih h1.2 h2.2⟩

/-- Members of a prefix are members of the whole. -/
theorem pfx_mem {p k : Bytes} {a : Nat} (h : List.isPrefixOf p k = true)
    (ha : a ∈ p) : a ∈ k := by
  induction p generalizing k with
  | nil => cases ha
  | cons x xs ih =>
    cases k with
    | nil => simp [List.isPrefixOf] at h
    | cons y ys =>
      simp only [List.isPrefixOf, Bool.and_eq_true, beq_iff_eq] at h
      rcases List.mem_cons.mp ha with h1 | h1
      · exact List.mem_cons.mpr (Or.inl (h1.trans h.1))
      · exact List.mem_cons.mpr (Or.inr (ih h.2 h1))

/-- The key order is transitive. -/
theorem keyLt_trans {a b c : Bytes} (h1 : keyLt a b = true)
    (h2 : keyLt b c = true) : keyLt a c = true := by
  induction a generalizing b c with
  | nil =>
    cases b with
    | nil => simp [keyLt] at h1
    | cons y ys =>
      cases c with
      | nil => simp [keyLt] at h2
      | cons z zs => simp [keyLt]
  | cons x xs ih =>
    cases b with
    | nil => simp [keyLt] at h1
    | cons y ys =>
      cases c with
      | nil => simp [keyLt] at h2
      | cons z zs =>
        simp [keyLt] at h1 h2 ⊢
        rcases h1 with h1 | ⟨hxy, h1⟩
        · rcases h2 with h2 | ⟨hyz, h2⟩
          · exact Or.inl (h1.trans h2)
          · exact Or.inl (hyz ▸ h1)
        · rcases h2 with h2 | ⟨hyz, h2⟩
          · subst hxy
            exact Or.inl h2
          · exact Or.inr ⟨hxy.trans hyz, ih h1 h2⟩

/-- A prefix never comes strictly after its extension in key order. -/
theorem pfx_not_keyLt {p k : Bytes} (h : List.isPrefixOf p k = true) :
    keyLt k p = false := by
  induction p generalizing k with
  | nil =>
    cases k with
    | nil => simp [keyLt]
    | cons y ys => simp [keyLt]
  | cons x xs ih =>
    cases k with
    | nil => simp [List.isPrefixOf] at h
    | cons y ys =>
      simp only [List.isPrefixOf, Bool.and_eq_true, beq_iff_eq] at h
      simp [keyLt, h.1, ih h.2]

/-- The key order is asymmetric. -/
theorem keyLt_asymm {a b : Bytes} (h : keyLt a b = true) : keyLt b a = false := by
  induction a generalizing b with
  | nil =>
    cases b with
    | nil => simp [keyLt] at h
    | cons y ys => simp [keyLt]
  | cons x xs ih =>
    cases b with
    | nil => simp [keyLt] at h
    | cons y ys =>
      simp only [keyLt, Bool.or_eq_true, Bool.and_eq_true, decide_eq_true_eq,
        beq_iff_eq] at h
      simp only [keyLt, Bool.or_eq_false_iff, Bool.and_eq_false_iff,
        decide_eq_false_iff_not, beq_eq_false_iff_ne, ne_eq, beq_iff_eq]
      rcases h with h | ⟨hxy, h⟩
      · exact ⟨by omega, Or.inl (by omega)⟩
      · subst hxy
        exact ⟨by omega, Or.inr (ih h)⟩

/-- Keys at or above a non-prefix key `a` that itself is at or above `u`
cannot have `u` as a prefix: keys sharing the prefix `u` form an interval
below the first non-prefix key. -/
theorem pfx_upward {u a b : Bytes} (ha1 : keyLt a u = false)
    (ha2 : List.isPrefixOf u a = false) (hab : keyLt b a = false) :
    List.isPrefixOf u b = false := by
  induction u generalizing a b with
  | nil => simp [List.isPrefixOf] at ha2
  | cons x xs ih =>
    cases a with
    | nil => simp [keyLt] at ha1
    | cons y ys =>
      cases b with
      | nil => simp [keyLt] at hab
      | cons z zs =>
        simp only [keyLt, Bool.or_eq_false_iff, Bool.and_eq_false_iff,
          decide_eq_false_iff_not, beq_eq_false_iff_ne, ne_eq, beq_iff_eq] at ha1 hab
        simp only [List.isPrefixOf, Bool.and_eq_false_iff,
          beq_eq_false_iff_ne, ne_eq, beq_iff_eq] at ha2 ⊢
        by_cases hxz : x = z
        · right
          by_cases hyx : y = x
          · have h1 : keyLt ys xs = false := by
              rcases ha1.2 with h | h
              · exact absurd hyx h
              · exact h
            have h2 : List.isPrefixOf xs ys = false := by
              rcases ha2 with h | h
              · exact absurd hyx.symm h
              · exact h
            have h3 : keyLt zs ys = false := by
              rcases hab.2 with h | h
              · exact absurd (hxz.symm.trans hyx.symm) h
              · exact h
            exact ih h1 h2 h3
          · exfalso
            have hlt : x < y := by
              have := ha1.1
              omega
            have := hab.1
            omega
        · exact Or.inl hxz

/-- A successful varint read consumes at least one byte. -/
theorem readVarUInt_some_length {l : Bytes} {v : Nat} {r : Bytes}
    (h : readVarUInt l = some (v, r)) : r.length < l.length := by
  induction l generalizing v r with
  | nil => simp [readVarUInt] at h
  | cons b rest ih =>
    simp only [readVarUInt] at h
    by_cases hb : b < 128
    · simp only [if_pos hb, Option.some.injEq, Prod.mk.injEq] at h
      rw [← h.2]
      simp
    · simp only [if_neg hb] at h
      cases hrec : readVarUInt rest with
      | none => rw [hrec] at h; simp at h
      | some p =>
        rw [hrec] at h
        obtain ⟨v1, r1⟩ := p
        simp only [Option.some.injEq, Prod.mk.injEq] at h
        have := ih hrec
        rw [← h.2]
        simp
        omega

/-- Reading a fixed number of bytes never grows the remainder. -/
theorem readBytes_some_length {n : Nat} {l bs r : Bytes}
    (h : readBytes n l = some (bs, r)) : r.length ≤ l.length := by
  unfold readBytes at h
  by_cases hn : n ≤ l.length
  · simp only [if_pos hn, Option.some.injEq, Prod.mk.injEq] at h
    rw [← h.2]
    simp
  · simp [hn] at h

/-- The varint encoder never produces an empty buffer. -/
theorem encodeVarUIntAux_ne_nil (fuel n : Nat) : encodeVarUIntAux fuel n ≠ [] := by
  cases fuel with
  | zero => simp [encodeVarUIntAux]
  | succ f =>
    simp only [encodeVarUIntAux]
    split <;> simp

/-- Decoding inverts the varint encoder on any sufficiently fuelled run,
with the remaining input untouched. -/
theorem readVarUInt_encodeAux (fuel : Nat) :
    ∀ (n : Nat) (rest : Bytes), n ≤ fuel →
    readVarUInt (encodeVarUIntAux fuel n ++ rest) = some (n, rest) := by
  induction fuel with
  | zero =>
    intro n rest hn
    have : n = 0 := by omega
    subst this
    simp [encodeVarUIntAux, readVarUInt]
  | succ f ih =>
    intro n rest hn
    by_cases h128 : n < 128
    · simp [encodeVarUIntAux, if_pos h128, readVarUInt, h128]
    · have hstep : encodeVarUIntAux (f + 1) n = (n % 128 + 128) :: encodeVarUIntAux f (n / 128) := by
        simp [encodeVarUIntAux, if_neg h128]
      rw [hstep]
      have hrec : readVarUInt (encodeVarUIntAux f (n / 128) ++ rest) = some (n / 128, rest) :=
        ih (n / 128) rest (by omega)
      simp only [List.cons_append, readVarUInt]
      have hge : ¬ (n % 128 + 128 < 128) := by omega
      rw [if_neg hge, List.append_eq, hrec]
      dsimp only
      have : (n % 128 + 128) % 128 + n / 128 * 128 = n := by omega
      rw [this]

/-- Decoding inverts the varint encoder. -/
theorem readVarUInt_encode (n : Nat) (rest : Bytes) :
    readVarUInt (encodeVarUInt n ++ rest) = some (n, rest) :=
  readVarUInt_encodeAux n n rest (Nat.le_refl n)

/-- Reading back exactly the bytes that were appended. -/
theorem readBytes_append (l rest : Bytes) :
    readBytes l.length (l ++ rest) = some (l, rest) := by
  unfold readBytes
  have hlen : l.length ≤ (l ++ rest).length := by simp
  rw [if_pos hlen, List.take_left, List.drop_left]

/-- The parameter loop is insensitive to the exact fuel, provided it covers
the buffer length. -/
theorem readParamsAux_irrel (f1 : Nat) :
    ∀ (f2 : Nat) (l : Bytes), l.length ≤ f1 → l.length ≤ f2 →
    readParamsAux f1 l = readParamsAux f2 l := by
  induction f1 with
  | zero =>
    intro f2 l h1 h2
    have : l = [] := by
      cases l with
      | nil => rfl
      | cons x xs => simp at h1
    subst this
    cases f2 <;> simp [readParamsAux]
  | succ g1 ih =>
    intro f2 l h1 h2
    cases l with
    | nil => cases f2 <;> simp [readParamsAux]
    | cons x xs =>
      cases f2 with
      | zero => simp at h2
      | succ g2 =>
        simp only [readParamsAux]
        cases hr1 : readVarUInt (x :: xs) with
        | none => rfl
        | some p1 =>
          obtain ⟨pid, r1⟩ := p1
          dsimp only
          cases getPixelParamName pid with
          | error e => rfl
          | ok name =>
            dsimp only
            cases hr2 : readVarUInt r1 with
            | none => rfl
            | some p2 =>
              obtain ⟨len, r2⟩ := p2
              dsimp only
              cases hr3 : readBytes len r2 with
              | none => rfl
              | some p3 =>
                obtain ⟨val, r3⟩ := p3
                dsimp only
                have hlen1 := readVarUInt_some_length hr1
                have hlen2 := readVarUInt_some_length hr2
                have hlen3 := readBytes_some_length hr3
                have : readParamsAux g1 r3 = readParamsAux g2 r3 := by
                  simp only [List.length_cons] at h1 h2 hlen1
                  apply ih <;> omega
                rw [this]

/-- The one-step unfolding of the parameter loop on a non-empty buffer. -/
theorem readParams_eq (l : Bytes) (h : l ≠ []) :
    readParams l =
      match readVarUInt l with
      | none => Except.error Err.bufferOverflow
      | some (pid, r1) =>
        match getPixelParamName pid with
        | Except.error e => Except.error e
        | Except.ok name =>
          match readVarUInt r1 with
          | none => Except.error Err.bufferOverflow
          | some (len, r2) =>
            match readBytes len r2 with
            | none => Except.error Err.bufferOverflow
            | some (val, r3) =>
              match readParams r3 with
              | Except.error e => Except.error e
              | Except.ok ps => Except.ok ((name, val) :: ps) := by
  cases l with
  | nil => exact absurd rfl h
  | cons x xs =>
    show readParamsAux (x :: xs).length (x :: xs) = _
    simp only [List.length_cons, readParamsAux]
    cases hr1 : readVarUInt (x :: xs) with
    | none => rfl
    | some p1 =>
      obtain ⟨pid, r1⟩ := p1
      dsimp only
      cases getPixelParamName pid with
      | error e => rfl
      | ok name =>
        dsimp only
        cases hr2 : readVarUInt r1 with
        | none => rfl
        | some p2 =>
          obtain ⟨len, r2⟩ := p2
          dsimp only
          cases hr3 : readBytes len r2 with
          | none => rfl
          | some p3 =>
            obtain ⟨val, r3⟩ := p3
            dsimp only
            have hlen1 := readVarUInt_some_length hr1
            have hlen2 := readVarUInt_some_length hr2
            have hlen3 := readBytes_some_length hr3
            have heq : readParamsAux xs.length r3 = readParams r3 := by
              show _ = readParamsAux r3.length r3
              simp only [List.length_cons] at hlen1
              apply readParamsAux_irrel <;> omega
            rw [heq]

/-- Every registered pair can be looked up backwards through the id-to-name
map built by the constructor. -/
theorem regs_inverse : ∀ p ∈ pixelParamRegs,
    List.lookup p.2 (pixelParamRegs.map (fun q => (q.2, q.1))) = some p.1 := by
  decide

/-- The id assigned to a registered name resolves back to that name. -/
theorem getPixelParamName_inv {name : Bytes} {pid : Nat}
    (h : List.lookup name pixelParamRegs = some pid) :
    getPixelParamName pid = Except.ok name := by
  have hm := lookup_mem h
  have hv := regs_inverse (name, pid) hm
  unfold getPixelParamName
  rw [hv]

/-- Decoding one encoded parameter triple prepends the named parameter and
continues on the remaining bytes. -/
theorem readParams_triple {name : Bytes} {pid : Nat}
    (h : List.lookup name pixelParamRegs = some pid) (v rest : Bytes) :
    readParams (encodeVarUInt pid ++ (encodeVarUInt v.length ++ (v ++ rest))) =
      match readParams rest with
      | Except.error e => Except.error e
      | Except.ok ps => Except.ok ((name, v) :: ps) := by
  have hne : encodeVarUInt pid ++ (encodeVarUInt v.length ++ (v ++ rest)) ≠ [] := by
    cases henc : encodeVarUInt pid with
    | nil => exact absurd henc (encodeVarUIntAux_ne_nil pid pid)
    | cons b bs => simp
  rw [readParams_eq _ hne, readVarUInt_encode]
  dsimp only
  rw [getPixelParamName_inv h]
  dsimp only
  rw [readVarUInt_encode]
  dsimp only
  rw [readBytes_append]

/-- Per-parameter encoding succeeds on registered names and decoding the
concatenated triples restores the parameter list. -/
theorem readParams_flatten (ps : List (Bytes × Bytes))
    (hreg : ∀ p ∈ ps, (List.lookup p.1 pixelParamRegs).isSome = true) :
    ∃ tr, ps.mapM (fun p => do
        let pid ← getPixelParamID p.1
        pure (encodeVarUInt pid ++ encodeVarUInt p.2.length ++ p.2)) =
          Except.ok (ε := Err) tr ∧
      readParams tr.flatten = Except.ok ps := by
  induction ps with
  | nil => exact ⟨[], rfl, rfl⟩
  | cons p tl ih =>
    have hp := hreg p (List.mem_cons_self p tl)
    obtain ⟨pid, hpid⟩ : ∃ pid, List.lookup p.1 pixelParamRegs = some pid := by
      cases hx : List.lookup p.1 pixelParamRegs with
      | none => rw [hx] at hp; simp at hp
      | some q => exact ⟨q, rfl⟩
    obtain ⟨tr, htr, hread⟩ := ih (fun q hq => hreg q (List.mem_cons_of_mem p hq))
    have hid : getPixelParamID p.1 = Except.ok pid := by
      unfold getPixelParamID
      rw [hpid]
    refine ⟨(encodeVarUInt pid ++ encodeVarUInt p.2.length ++ p.2) :: tr, ?_, ?_⟩
    · simp only [List.mapM_cons, htr, hid]
      rfl
    · simp only [List.flatten_cons, List.append_assoc]
      rw [readParams_triple hpid, hread]

/-- C6: for every event timestamp, event id, and parameter list whose
names are all registered in the pixel parameter dictionary, decoding the
encoded event record (varint seconds, varint event-id length plus event-id
bytes, then param-id/value-length/value triples) yields back exactly the
timestamp, event id and parameters, in the same order. -/
theorem encodeEvent_decodeEvent_roundtrip (t : Nat) (evid : Bytes)
    (ps : List (Bytes × Bytes))
    (hreg : ∀ p ∈ ps, (List.lookup p.1 pixelParamRegs).isSome = true) :
    ∃ buf, encodeEvent t evid ps = Except.ok buf ∧
      decodeEvent buf = Except.ok (t, evid, ps) := by
  obtain ⟨tr, htr, hread⟩ := readParams_flatten ps hreg
  refine ⟨encodeVarUInt t ++ encodeVarUInt evid.length ++ evid ++ tr.flatten, ?_, ?_⟩
  · unfold encodeEvent
    rw [htr]
    rfl
  · unfold decodeEvent
    simp only [List.append_assoc]
    rw [readVarUInt_encode]
    dsimp only
    rw [readVarUInt_encode]
    dsimp only
    rw [readBytes_append]
    dsimp only
    rw [hread]

/-- C6 witness: a concrete registered parameter round-trips. -/
theorem encodeEvent_decodeEvent_roundtrip_witness :
    (∀ p ∈ [(str ("qstr~en"), str ("hello"))],
      (List.lookup p.1 pixelParamRegs).isSome = true) ∧
    (∃ buf, encodeEvent 1000 (str ("e1")) [(str ("qstr~en"), str ("hello"))] =
        Except.ok buf ∧
      decodeEvent buf =
        Except.ok (1000, str ("e1"), [(str ("qstr~en"), str ("hello"))])) :=
  ⟨by decide,
   encodeEvent_decodeEvent_roundtrip 1000 (str ("e1"))
     [(str ("qstr~en"), str ("hello"))] (by decide)⟩

/-- C1: evaluation at the failing input.  Two appends for u1 at event
times 1000s and 2500s (idle timeout 1800s) leave the stored deadline at
(1000+1800) seconds in micros: the guarded emplace never replaces an
existing entry, so the deadline is not max(old, event_time+idle_timeout)
as the claim states. -/
theorem appendToSession_keeps_stale_deadline :
    List.lookup (str ("u1"))
      ((appendToSession (str ("CUST1")) (2500 * kMicrosPerSecond) (str ("u1"))
        (str ("e2")) (str ("q")) [] (str ("bbbbbbbbbbbbbbbb"))
        ((appendToSession (str ("CUST1")) (1000 * kMicrosPerSecond) (str ("u1"))
          (str ("e1")) (str ("q")) [] (str ("aaaaaaaaaaaaaaaa"))
          emptyState).2)).2.flushTimes) =
      some ((1000 + 1800) * kMicrosPerSecond) ∧
    (1000 + 1800) * kMicrosPerSecond ≠
      max ((1000 + 1800) * kMicrosPerSecond) ((2500 + 1800) * kMicrosPerSecond) := by
  decide

/-- C4: evaluation at the failing input.  A store holding two events for
u1 at times 1000 and 2500 (the time-1000 event first in key order) plus
the u1 customer record rebuilds, through importTimeoutList, a deadline of
(1000+1800) seconds in micros, not the (2500+1800) seconds in micros the
claim requires: the guarded emplace keeps the first deadline seen. -/
theorem importTimeoutList_keeps_stale_deadline :
    List.lookup (str ("u1"))
      ((importTimeoutList { emptyState with store :=
        [(str ("u1~cust"), str ("CUST1")),
         (str ("u1~q~aaaaaaaaaaaaaaaa"), evBytes 1000),
         (str ("u1~q~bbbbbbbbbbbbbbbb"), evBytes 2500)] }).2.flushTimes) =
      some ((1000 + 1800) * kMicrosPerSecond) ∧
    (1000 + 1800) * kMicrosPerSecond ≠ (2500 + 1800) * kMicrosPerSecond := by
  decide

/-- C2 counterexample: a session whose join target throws still increments
joined_sessions.  On a one-event session for u1 with a present customer
key and an always-failing target, flushSession returns normally and writes
no envelope (the store drains to empty), but joined_sessions rises from 0
to 1, contradicting the claim that the counter is not incremented. -/
theorem flushSession_joinFailure_increments_counter :
    flushSession failJoinCfg (str ("u1")) 0 (str ("ffffffffffffffffffffffffffffffff"))
      { emptyState with store :=
        [(str ("u1~cust"), str ("CUST1")),
         (str ("u1~q~0000000000000000"), evBytes 1000)] } =
      (none, { flushTimes := [], store := [], logTotal := 0, logInvalid := 0,
               joinedSessions := 1 }) ∧
    (1 : Nat) ≠ 0 := by
  decide

/-- C3 counterexample: a raw line with no pipe separator fails with
kRuntimeError, not kParseError, and leaves the whole state, including
loglines_invalid, untouched. -/
theorem insertLoglineRaw_malformed_not_parseError :
    insertLoglineRaw acceptAllCfg (str ("abc")) [] emptyState =
      (some Err.runtimeError, emptyState) ∧
    Err.runtimeError ≠ Err.parseError := by
  decide

/-- C5 counterexample: an event record whose value is empty (truncated
timestamp varint) makes flushSession raise instead of skipping the event:
the decode of the timestamp sits outside the try block. -/
theorem flushSession_truncated_timestamp_raises :
    (flushSession acceptAllCfg (str ("u1")) 0 (str ("ffffffffffffffffffffffffffffffff"))
      { emptyState with store :=
        [(str ("u1~cust"), str ("CUST1")),
         (str ("u1~q~0000000000000000"), [])] }).1 = some Err.bufferOverflow ∧
    some Err.bufferOverflow ≠ (none : Option Err) := by
  decide

/-- C2 (amended): when the scan completes with a present customer key and
the join target fails, flushSession logs, writes no envelope record (the
store keeps only the drained result), returns normally, and still
increments joined_sessions, which sits after the catch block. -/
theorem flushSession_joinFailure_behavior (cfg : LogJoinCfg) (uid : Bytes) (t : Nat)
    (hex128 : Bytes) (s : LJState) (sess : TrackedSessionT) (inv : Nat)
    (rest2 : List (Bytes × Bytes))
    (hscan : flushScan uid (s.store.dropWhile (fun e => keyLt e.1 uid))
      { uid := uid, customer_key := [], events := [] } s.logInvalid =
      (sess, inv, rest2, none))
    (hcust : sess.customer_key.length ≠ 0)
    (hfail : cfg.joinSession sess = Except.error ()) :
    flushSession cfg uid t hex128 s =
      (none,
       { s with
         store := s.store.takeWhile (fun e => keyLt e.1 uid) ++ rest2,
         logInvalid := inv,
         joinedSessions := s.joinedSessions + 1 }) := by
  unfold flushSession
  dsimp only
  rw [hscan]
  dsimp only
  rw [if_neg hcust]
  unfold onSession
  rw [hfail]

/-- C2 witness: the amended behaviour at a concrete one-event session
whose join target fails. -/
theorem flushSession_joinFailure_behavior_witness :
    flushSession failJoinCfg (str ("u2")) 0 (str ("00000000000000000000000000000000"))
      { emptyState with store :=
        [(str ("u2~cust"), str ("CUST9")),
         (str ("u2~q~0000000000000000"), evBytes 1000)] } =
      (none, { flushTimes := [], store := [], logTotal := 0, logInvalid := 0,
               joinedSessions := 1 }) := by
  have h := flushSession_joinFailure_behavior failJoinCfg (str ("u2")) 0
    (str ("00000000000000000000000000000000"))
    { emptyState with store :=
      [(str ("u2~cust"), str ("CUST9")),
       (str ("u2~q~0000000000000000"), evBytes 1000)] }
    { uid := str ("u2"), customer_key := str ("CUST9"),
      events := [(1000000000, str ("q"), str ("e1"), [])] }
    0 [] (by decide) (by decide) rfl
  exact h.trans (by decide)

/-- A byte that does not occur in a list is never found. -/
theorem findByte_count_zero {b : Nat} {l : Bytes} (h : l.count b = 0) :
    findByte b l = none := by
  induction l with
  | nil => rfl
  | cons x xs ih =>
    rw [List.count_cons] at h
    have hx : ¬ x = b := by
      intro hxb
      simp [hxb] at h
    have hxs : xs.count b = 0 := by
      simp [hx] at h
      exact h
    unfold findByte
    rw [if_neg hx, ih hxs]

/-- Finding a byte splits off one occurrence: the tail after the found
position holds one fewer. -/
theorem findByte_some_count {b : Nat} {l : Bytes} {i : Nat}
    (h : findByte b l = some i) :
    (l.drop (i + 1)).count b = l.count b - 1 ∧ l.count b ≠ 0 := by
  induction l generalizing i with
  | nil => simp [findByte] at h
  | cons x xs ih =>
    unfold findByte at h
    by_cases hx : x = b
    · rw [if_pos hx] at h
      simp at h
      subst h
      subst hx
      simp [List.count_cons]
    · rw [if_neg hx] at h
      cases hf : findByte b xs with
      | none => rw [hf] at h; simp at h
      | some j =>
        rw [hf] at h
        simp at h
        subst h
        obtain ⟨h1, h2⟩ := ih hf
        constructor
        · show (List.drop (j + 1) xs).count b = _
          rw [h1, List.count_cons]
          simp [hx]
        · rw [List.count_cons]
          simp [hx]
          omega

/-- C3 (amended): a raw line with fewer than two pipe separators makes the
raw insert fail with kRuntimeError before any counter is touched: the
state, including loglines_invalid and loglines_total, is returned
unchanged and nothing is stored. -/
theorem insertLoglineRaw_malformed (cfg : LogJoinCfg) (line hex : Bytes) (s : LJState)
    (h : line.count pipeByte < 2) :
    insertLoglineRaw cfg line hex s = (some Err.runtimeError, s) := by
  unfold insertLoglineRaw
  cases hf : findByte pipeByte line with
  | none => rfl
  | some c_end =>
    dsimp only
    obtain ⟨h1, h2⟩ := findByte_some_count hf
    have hz : (line.drop (c_end + 1)).count pipeByte = 0 := by omega
    rw [findByte_count_zero hz]

/-- C3 witness: the amended behaviour at the concrete pipe-free line. -/
theorem insertLoglineRaw_malformed_witness :
    (str ("abc")).count pipeByte < 2 ∧
    insertLoglineRaw acceptAllCfg (str ("abc")) [] emptyState =
      (some Err.runtimeError, emptyState) :=
  ⟨by decide,
   insertLoglineRaw_malformed acceptAllCfg (str ("abc")) [] emptyState (by decide)⟩

/-- C5 (amended): an event entry in the scanned range whose timestamp,
event-id length and event-id decode but whose parameter triples fail to
decode (truncation or unknown parameter id) is skipped: the scan deletes
it, bumps the invalid counter by one, raises nothing, and continues with
the remaining entries. -/
theorem flushScan_paramError_skips (uid k v : Bytes) (sess : TrackedSessionT)
    (inv : Nat) (rest : List (Bytes × Bytes)) (t len : Nat)
    (r1 r2 evid r3 : Bytes) (e : Err)
    (hpre : List.isPrefixOf uid k = true)
    (hcust : List.isSuffixOf (str ("~cust")) k = false)
    (h1 : readVarUInt v = some (t, r1))
    (h2 : readVarUInt r1 = some (len, r2))
    (h3 : readBytes len r2 = some (evid, r3))
    (hp : readParams r3 = Except.error e) :
    flushScan uid ((k, v) :: rest) sess inv = flushScan uid rest sess (inv + 1) := by
  conv_lhs => rw [flushScan.eq_def]
  dsimp only
  rw [hpre]
  simp only [if_true]
  unfold processEntry
  rw [hcust]
  simp only [Bool.false_eq_true, if_false]
  rw [h1]
  dsimp only
  rw [h2]
  dsimp only
  rw [h3]
  dsimp only
  rw [hp]

/-- C5 witness: the amended skip at a concrete event whose single
parameter byte is an unregistered id. -/
theorem flushScan_paramError_skips_witness :
    List.isPrefixOf (str ("u1")) (str ("u1~q~0000000000000000")) = true ∧
    flushScan (str ("u1"))
      [(str ("u1~q~0000000000000000"), evBytes 1000 ++ [99])]
      { uid := str ("u1"), customer_key := [], events := [] } 0 =
    flushScan (str ("u1")) []
      { uid := str ("u1"), customer_key := [], events := [] } (0 + 1) :=
  ⟨by decide,
   flushScan_paramError_skips (str ("u1")) (str ("u1~q~0000000000000000"))
     (evBytes 1000 ++ [99])
     { uid := str ("u1"), customer_key := [], events := [] } 0 []
     1000 2 (encodeVarUInt 2 ++ str ("e1") ++ [99]) (str ("e1") ++ [99])
     (str ("e1")) [99] Err.indexError
     (by decide) (by decide) (by decide) (by decide) (by decide) rfl⟩

/-- C9: a parsed line whose c parameter splits into a non-empty uid and
event id, when the shard predicate rejects the uid, increments
loglines_total by exactly one, returns without an error, and leaves the
store, the deadline map and loglines_invalid untouched. -/
theorem insertParsed_shard_miss (cfg : LogJoinCfg) (ck : Bytes) (t : Nat)
    (params : List (Bytes × Bytes)) (hex : Bytes) (s : LJState) (c : Bytes) (i : Nat)
    (hc : getParam params (str ("c")) = some c)
    (hi : findByte tildeByte c = some i)
    (hu : (c.take i).length ≠ 0)
    (he : (c.drop (i + 1)).length ≠ 0)
    (hsh : cfg.accepts (c.take i) = false) :
    insertParsed cfg ck t params hex s = (none, { s with logTotal := s.logTotal + 1 }) := by
  unfold insertParsed insertParsedInner
  rw [hc]
  dsimp only
  rw [hi]
  dsimp only
  rw [if_neg (not_or.mpr ⟨hu, he⟩)]
  rw [if_pos (by simp [hsh])]

/-- C9 witness: a concrete line for a rejected uid. -/
theorem insertParsed_shard_miss_witness :
    insertParsed
      { accepts := fun u => !(u == str ("u3")),
        joinSession := fun _ => Except.ok [], dryRun := false }
      (str ("CUST1")) (1000 * kMicrosPerSecond)
      [(str ("c"), str ("u3~e1")), (str ("e"), str ("q"))]
      (str ("0000000000000000")) emptyState =
      (none, { emptyState with logTotal := emptyState.logTotal + 1 }) :=
  insertParsed_shard_miss
    { accepts := fun u => !(u == str ("u3")),
      joinSession := fun _ => Except.ok [], dryRun := false }
    (str ("CUST1")) (1000 * kMicrosPerSecond)
    [(str ("c"), str ("u3~e1")), (str ("e"), str ("q"))]
    (str ("0000000000000000")) emptyState (str ("u3~e1")) 2
    (by decide) (by decide) (by decide) (by decide) (by decide)

/-- flushSession never touches the deadline map. -/
theorem flushSession_preserves_flushTimes (cfg : LogJoinCfg) (uid : Bytes) (t : Nat)
    (hex : Bytes) (s : LJState) :
    ((flushSession cfg uid t hex s).2).flushTimes = s.flushTimes := by
  unfold flushSession
  dsimp only
  split
  · rfl
  · split
    · rfl
    · split
      · rfl
      · rfl

/-- A no-error run of the flush loop keeps exactly the entries at or above
the stream time and routes the state through flushSession over the due
uids in order. -/
theorem flushLoop_ok (cfg : LogJoinCfg) (t : Nat) :
    ∀ (entries : List (Bytes × Nat)) (hexes : List Bytes) (s : LJState)
      (kept : List (Bytes × Nat)) (s2 : LJState),
    flushLoop cfg t hexes entries s = (none, kept, s2) →
    kept = entries.filter (fun p => !decide (p.2 < t)) ∧
    flushMany cfg t hexes
      ((entries.filter (fun p => decide (p.2 < t))).map Prod.fst) s = (none, s2) := by
  intro entries
  induction entries with
  | nil =>
    intro hexes s kept s2 h
    unfold flushLoop at h
    simp only [Prod.mk.injEq, true_and] at h
    refine ⟨h.1.symm, ?_⟩
    rw [← h.2]
    rfl
  | cons p rest ih =>
    intro hexes s kept s2 h
    obtain ⟨uid, dl⟩ := p
    rw [flushLoop.eq_def] at h
    dsimp only at h
    by_cases hdl : dl < t
    · rw [if_pos hdl] at h
      cases hfs : flushSession cfg uid t (hexes.headD []) s with
      | mk err s1 =>
        rw [hfs] at h
        cases err with
        | some e => simp at h
        | none =>
          dsimp only at h
          obtain ⟨hkept, hmany⟩ := ih hexes.tail s1 kept s2 h
          constructor
          · rw [hkept]
            simp [hdl]
          · have hfil : ((uid, dl) :: rest).filter (fun p => decide (p.2 < t)) =
                (uid, dl) :: rest.filter (fun p => decide (p.2 < t)) := by
              simp [hdl]
            rw [hfil]
            dsimp only [List.map]
            rw [flushMany.eq_def]
            dsimp only
            rw [hfs]
            exact hmany
    · rw [if_neg hdl] at h
      rcases hloop : flushLoop cfg t hexes rest s with ⟨err, kept2, s3⟩
      rw [hloop] at h
      dsimp only at h
      simp only [Prod.mk.injEq] at h
      obtain ⟨herr, hkept, hs⟩ := h
      subst herr
      subst hs
      obtain ⟨hk2, hmany⟩ := ih hexes s kept2 s3 hloop
      constructor
      · rw [← hkept, hk2]
        simp [hdl]
      · have hfil : ((uid, dl) :: rest).filter (fun p => decide (p.2 < t)) =
            rest.filter (fun p => decide (p.2 < t)) := by
          simp [hdl]
        rw [hfil]
        exact hmany

/-- C7: after a flush(txn, t) that returns without an error, every entry
remaining in the deadline map has deadline at or above t; the surviving
map is exactly the old map restricted to those entries; and every user
whose deadline was strictly below t has been flushed, the final
store/counters being the result of running flushSession over exactly those
users in map order. -/
theorem flush_boundary (cfg : LogJoinCfg) (t : Nat) (hexes : List Bytes)
    (s s2 : LJState) (h : flush cfg t hexes s = (none, s2)) :
    (∀ p ∈ s2.flushTimes, t ≤ p.2) ∧
    s2.flushTimes = s.flushTimes.filter (fun p => !decide (p.2 < t)) ∧
    ∃ s3, flushMany cfg t hexes
        ((s.flushTimes.filter (fun p => decide (p.2 < t))).map Prod.fst) s =
        (none, s3) ∧
      s2 = { s3 with flushTimes := s2.flushTimes } := by
  unfold flush at h
  rcases hloop : flushLoop cfg t hexes s.flushTimes s with ⟨err, kept, s3⟩
  rw [hloop] at h
  dsimp only at h
  simp only [Prod.mk.injEq] at h
  obtain ⟨herr, hs2⟩ := h
  subst herr
  obtain ⟨hkept, hmany⟩ := flushLoop_ok cfg t s.flushTimes hexes s kept s3 hloop
  have hft : s2.flushTimes = kept := by rw [← hs2]
  refine ⟨?_, ?_, s3, hmany, ?_⟩
  · intro p hp
    rw [hft, hkept] at hp
    have := List.of_mem_filter hp
    simp at this
    omega
  · rw [hft, hkept]
  · rw [← hs2]

/-- C7 witness: a concrete flush at stream time 3000s in micros over two
deadlines, 2800s (due) and 5000s (kept). -/
theorem flush_boundary_witness :
    flush acceptAllCfg 3000000000 [str ("ffffffffffffffffffffffffffffffff")]
      ⟨[(str ("u1"), 2800000000), (str ("u2"), 5000000000)],
       [(str ("u1~cust"), str ("CUST1")), (str ("u1~q~0000000000000000"), evBytes 1000)],
       2, 0, 0⟩ =
      (none,
       ⟨[(str ("u2"), 5000000000)],
        [(str ("__sessionq-") ++ str ("ffffffffffffffffffffffffffffffff"),
          encodeEnvelope ⟨str ("CUST1"), str ("u1"), 1000000000, str ("DATA")⟩)],
        2, 0, 1⟩) ∧
    (∀ p ∈ [(str ("u2"), 5000000000)], 3000000000 ≤ p.2) := by
  have hflush : flush acceptAllCfg 3000000000 [str ("ffffffffffffffffffffffffffffffff")]
      ⟨[(str ("u1"), 2800000000), (str ("u2"), 5000000000)],
       [(str ("u1~cust"), str ("CUST1")), (str ("u1~q~0000000000000000"), evBytes 1000)],
       2, 0, 0⟩ =
      (none,
       ⟨[(str ("u2"), 5000000000)],
        [(str ("__sessionq-") ++ str ("ffffffffffffffffffffffffffffffff"),
          encodeEnvelope ⟨str ("CUST1"), str ("u1"), 1000000000, str ("DATA")⟩)],
        2, 0, 1⟩) := by decide
  refine ⟨hflush, ?_⟩
  have hb := flush_boundary acceptAllCfg 3000000000
    [str ("ffffffffffffffffffffffffffffffff")]
    ⟨[(str ("u1"), 2800000000), (str ("u2"), 5000000000)],
     [(str ("u1~cust"), str ("CUST1")), (str ("u1~q~0000000000000000"), evBytes 1000)],
     2, 0, 0⟩ _ hflush
  exact hb.1

/-- Membership after a store upsert: the member is the new key or was
already present. -/
theorem mem_storePut {k v k1 v1 : Bytes} :
    ∀ {l : List (Bytes × Bytes)}, (k, v) ∈ storePut k1 v1 l →
    k = k1 ∨ (k, v) ∈ l := by
  intro l
  induction l with
  | nil =>
    intro h
    unfold storePut at h
    rcases List.mem_cons.mp h with h1 | h1
    · exact Or.inl (congrArg Prod.fst h1)
    · cases h1
  | cons p t ih =>
    intro h
    obtain ⟨k2, v2⟩ := p
    unfold storePut at h
    by_cases h1 : keyLt k1 k2 = true
    · rw [if_pos h1] at h
      rcases List.mem_cons.mp h with h2 | h2
      · exact Or.inl (congrArg Prod.fst h2)
      · exact Or.inr h2
    · rw [if_neg h1] at h
      by_cases h2 : k1 = k2
      · rw [if_pos h2] at h
        rcases List.mem_cons.mp h with h3 | h3
        · exact Or.inl (congrArg Prod.fst h3)
        · exact Or.inr (List.mem_cons_of_mem _ h3)
      · rw [if_neg h2] at h
        rcases List.mem_cons.mp h with h3 | h3
        · exact Or.inr (List.mem_cons.mpr (Or.inl h3))
        · rcases ih h3 with h4 | h4
          · exact Or.inl h4
          · exact Or.inr (List.mem_cons_of_mem _ h4)

/-- A no-error scan consumes exactly the leading run of keys carrying the
bare uid prefix: the surviving suffix is the dropWhile of that test. -/
theorem flushScan_ok_rest (uid : Bytes) :
    ∀ (l : List (Bytes × Bytes)) (sess : TrackedSessionT) (inv : Nat)
      (sess2 : TrackedSessionT) (inv2 : Nat) (rest2 : List (Bytes × Bytes)),
    flushScan uid l sess inv = (sess2, inv2, rest2, none) →
    rest2 = l.dropWhile (fun e => List.isPrefixOf uid e.1) := by
  intro l
  induction l with
  | nil =>
    intro sess inv sess2 inv2 rest2 h
    unfold flushScan at h
    simp only [Prod.mk.injEq] at h
    exact h.2.2.1.symm
  | cons p t ih =>
    intro sess inv sess2 inv2 rest2 h
    obtain ⟨k, v⟩ := p
    rw [flushScan.eq_def] at h
    dsimp only at h
    by_cases hp : List.isPrefixOf uid k = true
    · rw [if_pos hp] at h
      cases hpe : processEntry uid k v sess inv with
      | error e =>
        rw [hpe] at h
        simp at h
      | ok r =>
        obtain ⟨sess3, inv3⟩ := r
        rw [hpe] at h
        dsimp only at h
        simp only [List.dropWhile_cons]
        rw [if_pos hp]
        exact ih sess3 inv3 sess2 inv2 rest2 h
    · rw [if_neg hp] at h
      simp only [Prod.mk.injEq] at h
      simp only [List.dropWhile_cons]
      rw [if_neg hp]
      exact h.2.2.1.symm

/-- In a sorted store, everything surviving the seek past the keys below
uid is at or above uid. -/
theorem dropWhile_lt_not_lt (uid : Bytes) :
    ∀ (l : List (Bytes × Bytes)),
    l.Pairwise (fun a b => keyLt a.1 b.1 = true) →
    ∀ x ∈ l.dropWhile (fun e => keyLt e.1 uid), keyLt x.1 uid = false := by
  intro l
  induction l with
  | nil => intro _ x hx; simp at hx
  | cons p t ih =>
    intro hs x hx
    by_cases hp : keyLt p.1 uid = true
    · simp only [List.dropWhile_cons] at hx
      rw [if_pos hp] at hx
      exact ih (List.Pairwise.sublist (List.sublist_cons_self p t) hs) x hx
    · simp only [List.dropWhile_cons] at hx
      rw [if_neg hp] at hx
      rcases List.mem_cons.mp hx with h1 | h1
      · rw [h1]
        exact Bool.not_eq_true _ ▸ (by simpa using hp)
      · have hrel : keyLt p.1 x.1 = true := (List.pairwise_cons.mp hs).1 x h1
        have hnot : keyLt p.1 uid = false := by simpa using hp
        by_cases hxu : keyLt x.1 uid = true
        · exact absurd (keyLt_trans hrel hxu) (by simp [hnot])
        · simpa using hxu

/-- In a sorted run of keys at or above uid, everything surviving the drop
of the uid-prefixed run is free of the uid prefix. -/
theorem dropWhile_pfx_not_pfx (uid : Bytes) :
    ∀ (l : List (Bytes × Bytes)),
    l.Pairwise (fun a b => keyLt a.1 b.1 = true) →
    (∀ x ∈ l, keyLt x.1 uid = false) →
    ∀ y ∈ l.dropWhile (fun e => List.isPrefixOf uid e.1),
      List.isPrefixOf uid y.1 = false := by
  intro l
  induction l with
  | nil => intro _ _ y hy; simp at hy
  | cons p t ih =>
    intro hs hlt y hy
    by_cases hp : List.isPrefixOf uid p.1 = true
    · simp only [List.dropWhile_cons] at hy
      rw [if_pos hp] at hy
      exact ih (List.Pairwise.sublist (List.sublist_cons_self p t) hs)
        (fun x hx => hlt x (List.mem_cons_of_mem p hx)) y hy
    · simp only [List.dropWhile_cons] at hy
      rw [if_neg hp] at hy
      have hpf : List.isPrefixOf uid p.1 = false := by
        cases hb : List.isPrefixOf uid p.1 with
        | false => rfl
        | true => exact absurd hb hp
      rcases List.mem_cons.mp hy with h1 | h1
      · rw [h1]
        exact hpf
      · have hrel : keyLt p.1 y.1 = true := (List.pairwise_cons.mp hs).1 y h1
        exact pfx_upward (hlt p (List.mem_cons_self p t)) hpf (keyLt_asymm hrel)

/-- After a flushSession that returns without an error, the store is the
drained store (keys below uid, then the post-run suffix), possibly with
one new "__sessionq-" output record upserted. -/
theorem flushSession_ok_store (cfg : LogJoinCfg) (uid : Bytes) (t : Nat)
    (hex128 : Bytes) (s s2 : LJState)
    (h : flushSession cfg uid t hex128 s = (none, s2)) :
    s2.store = s.store.takeWhile (fun e => keyLt e.1 uid) ++
        ((s.store.dropWhile (fun e => keyLt e.1 uid)).dropWhile
          (fun e => List.isPrefixOf uid e.1)) ∨
    ∃ env, s2.store = storePut (str ("__sessionq-") ++ hex128) env
      (s.store.takeWhile (fun e => keyLt e.1 uid) ++
        ((s.store.dropWhile (fun e => keyLt e.1 uid)).dropWhile
          (fun e => List.isPrefixOf uid e.1))) := by
  unfold flushSession at h
  dsimp only at h
  rcases hscan : flushScan uid (s.store.dropWhile fun e => keyLt e.1 uid)
    { uid := uid, customer_key := [], events := [] } s.logInvalid with
    ⟨sess, inv, rest2, err⟩
  rw [hscan] at h
  cases err with
  | some e =>
    dsimp only at h
    simp at h
  | none =>
    dsimp only at h
    have hrest := flushScan_ok_rest uid _ _ _ _ _ _ hscan
    subst hrest
    by_cases hck : sess.customer_key.length = 0
    · rw [if_pos hck] at h
      simp only [Prod.mk.injEq, true_and] at h
      left
      rw [← h]
    · rw [if_neg hck] at h
      cases hos : onSession cfg hex128 sess
        (s.store.takeWhile (fun e => keyLt e.1 uid) ++
          ((s.store.dropWhile (fun e => keyLt e.1 uid)).dropWhile
            (fun e => List.isPrefixOf uid e.1))) with
      | error e =>
        rw [hos] at h
        simp only [Prod.mk.injEq, true_and] at h
        left
        rw [← h]
      | ok st2 =>
        rw [hos] at h
        simp only [Prod.mk.injEq, true_and] at h
        unfold onSession at hos
        cases hjoin : cfg.joinSession sess with
        | error e => rw [hjoin] at hos; simp at hos
        | ok data =>
          rw [hjoin] at hos
          dsimp only at hos
          by_cases hdry : cfg.dryRun = true
          · rw [if_pos hdry] at hos
            simp only [Except.ok.injEq] at hos
            left
            rw [← h, ← hos]
          · rw [if_neg hdry] at hos
            cases hfs : firstSeenTime sess with
            | none => rw [hfs] at hos; simp at hos
            | some fs =>
              rw [hfs] at hos
              dsimp only at hos
              simp only [Except.ok.injEq] at hos
              right
              refine ⟨encodeEnvelope
                { customer := sess.customer_key, session_id := sess.uid,
                  time := fs, session_data := data }, ?_⟩
              rw [← h, ← hos]

/-- After an error-free flushSession for uid, no key that extends uid and
contains a tilde remains in the store: the drained ranges cannot contain
it and the only new key is the tilde-free output-queue key. -/
theorem flushSession_drain (cfg : LogJoinCfg) (uid : Bytes) (t : Nat)
    (hex128 : Bytes) (s s2 : LJState)
    (hsort : s.store.Pairwise (fun a b => keyLt a.1 b.1 = true))
    (hhex : tildeByte ∉ hex128)
    (h : flushSession cfg uid t hex128 s = (none, s2))
    (k val : Bytes) (hk : List.isPrefixOf uid k = true) (htil : tildeByte ∈ k) :
    (k, val) ∉ s2.store := by
  intro hmem
  have hchar := flushSession_ok_store cfg uid t hex128 s s2 h
  have hbase : (k, val) ∉ s.store.takeWhile (fun e => keyLt e.1 uid) ++
      ((s.store.dropWhile (fun e => keyLt e.1 uid)).dropWhile
        (fun e => List.isPrefixOf uid e.1)) := by
    intro hm
    rcases List.mem_append.mp hm with h1 | h1
    · have hkl := List.mem_takeWhile_imp h1
      have hkl2 : keyLt k uid = true := hkl
      simp [pfx_not_keyLt hk] at hkl2
    · have hsort1 : (s.store.dropWhile (fun e => keyLt e.1 uid)).Pairwise
          (fun a b => keyLt a.1 b.1 = true) :=
        List.Pairwise.sublist (List.dropWhile_sublist _) hsort
      have hlt := dropWhile_lt_not_lt uid s.store hsort
      have hnp := dropWhile_pfx_not_pfx uid
        (s.store.dropWhile (fun e => keyLt e.1 uid)) hsort1 hlt (k, val) h1
      simp [hk] at hnp
  rcases hchar with hc | ⟨env, hc⟩
  · rw [hc] at hmem
    exact hbase hmem
  · rw [hc] at hmem
    rcases mem_storePut hmem with he | hm2
    · rw [he] at htil
      rcases List.mem_append.mp htil with h2 | h2
      · exact absurd h2 (by decide)
      · exact hhex h2
    · exact hbase hm2

/-- C8: after a flush_session(u, t, txn) that returns without an error on
a sorted store, no key beginning with "u~" (the "u~cust" record and all
"u~evtype~hex" event records) remains in the store (hex128 is tilde-free,
as rnd_.hex128() only produces hex characters). -/
theorem flushSession_scan_and_drain (cfg : LogJoinCfg) (uid : Bytes) (t : Nat)
    (hex128 : Bytes) (s s2 : LJState)
    (hsort : s.store.Pairwise (fun a b => keyLt a.1 b.1 = true))
    (hhex : tildeByte ∉ hex128)
    (h : flushSession cfg uid t hex128 s = (none, s2)) :
    ∀ k val, List.isPrefixOf (uid ++ [tildeByte]) k = true → (k, val) ∉ s2.store := by
  intro k val hk
  exact flushSession_drain cfg uid t hex128 s s2 hsort hhex h k val
    (pfx_trans (pfx_append uid [tildeByte]) hk)
    (pfx_mem hk (by simp))

/-- C8 witness: the drain at a concrete two-record store for u1. -/
theorem flushSession_scan_and_drain_witness :
    (str ("u1~q~0000000000000000"), evBytes 1000) ∉
      (⟨[], [(str ("__sessionq-") ++ str ("ffffffffffffffffffffffffffffffff"),
        encodeEnvelope ⟨str ("CUST1"), str ("u1"), 1000000000, str ("DATA")⟩)],
        0, 0, 1⟩ : LJState).store :=
  flushSession_scan_and_drain acceptAllCfg (str ("u1")) 0
    (str ("ffffffffffffffffffffffffffffffff"))
    ⟨[], [(str ("u1~cust"), str ("CUST1")),
          (str ("u1~q~0000000000000000"), evBytes 1000)], 0, 0, 0⟩
    ⟨[], [(str ("__sessionq-") ++ str ("ffffffffffffffffffffffffffffffff"),
      encodeEnvelope ⟨str ("CUST1"), str ("u1"), 1000000000, str ("DATA")⟩)],
      0, 0, 1⟩
    (by decide) (by decide) (by decide)
    (str ("u1~q~0000000000000000")) (evBytes 1000) (by decide)

/-- C10: flush_session(u, t, txn) scans with the bare uid as the prefix
test, so after an error-free flush of u over a sorted store, every record
of any user v whose uid extends u - v's "v~cust" customer record and all
its "v~evtype~hex" event records - has been consumed and deleted as well:
no key beginning with "v~" remains. -/
theorem flushSession_consumes_shared_uid_records (cfg : LogJoinCfg) (u v : Bytes)
    (t : Nat) (hex128 : Bytes) (s s2 : LJState)
    (hsort : s.store.Pairwise (fun a b => keyLt a.1 b.1 = true))
    (hhex : tildeByte ∉ hex128)
    (h : flushSession cfg u t hex128 s = (none, s2))
    (hpref : List.isPrefixOf u v = true) :
    ∀ k val, List.isPrefixOf (v ++ [tildeByte]) k = true → (k, val) ∉ s2.store := by
  intro k val hk
  exact flushSession_drain cfg u t hex128 s s2 hsort hhex h k val
    (pfx_trans hpref (pfx_trans (pfx_append v [tildeByte]) hk))
    (pfx_mem hk (by simp))

/-- C10 witness: flushing u1 over a sorted store also consumes and deletes
u10's customer-key record (and event record), u1 being a proper prefix of
u10. -/
theorem flushSession_consumes_shared_uid_records_witness :
    (str ("u10~cust"), str ("CUST2")) ∉
      (⟨[], [(str ("__sessionq-") ++ str ("ffffffffffffffffffffffffffffffff"),
        encodeEnvelope ⟨str ("CUST1"), str ("u1"), 1000000000, str ("DATA")⟩)],
        0, 0, 1⟩ : LJState).store :=
  flushSession_consumes_shared_uid_records acceptAllCfg (str ("u1")) (str ("u10"))
    0 (str ("ffffffffffffffffffffffffffffffff"))
    ⟨[], [(str ("u10~cust"), str ("CUST2")),
          (str ("u10~q~0000000000000000"), evBytes 1500),
          (str ("u1~cust"), str ("CUST1")),
          (str ("u1~q~1111111111111111"), evBytes 1000)], 0, 0, 0⟩
    ⟨[], [(str ("__sessionq-") ++ str ("ffffffffffffffffffffffffffffffff"),
      encodeEnvelope ⟨str ("CUST1"), str ("u1"), 1000000000, str ("DATA")⟩)],
      0, 0, 1⟩
    (by decide) (by decide) (by decide) (by decide)
    (str ("u10~cust")) (str ("CUST2")) (by decide)
